import Mathlib

/-!
Shallow embedding of `src/main.rs` of the apk-downloader tool, and proofs
about its CSV column extraction, retry chains, finalization loop, download
directory derivation and filename derivation.

Strings are modelled as `List Char`. Whitespace is modelled over the ASCII
fragment of Rust's `char::is_whitespace`. Fallible or panicking operations
are modelled with `Except Unit` (`.error ()` marks a panic or an undefined
result).
-/

namespace ApkDownloader

/-- ASCII fragment of Rust `char::is_whitespace`, as used by `str::trim`. -/
def isWS (c : Char) : Bool :=
  c == ' ' || c == '\t' || c == '\n' || c == '\r'

/-- Rust `str::trim`: drop whitespace from both ends of the line. -/
def trimChars (l : List Char) : List Char :=
  ((l.dropWhile isWS).reverse.dropWhile isWS).reverse

/-- Rust `str::split` on a one-character separator: `"".split(c)` yields one
empty field, `"a,".split(c)` yields a trailing empty field. -/
def splitSep (sep : Char) : List Char → List (List Char)
  | [] => [[]]
  | c :: cs =>
    if c == sep then [] :: splitSep sep cs
    else
      match splitSep sep cs with
      | [] => [[c]]
      | h :: t => (c :: h) :: t

/-- The fields of one CSV row: `main.rs` line 70-71, `l.trim()` then
`entry.split(",")`. The line is trimmed as a whole; fields are not. -/
def rowFields (l : List Char) : List (List Char) :=
  splitSep ',' (trimChars l)

/-- The guard of `main.rs` line 72:
`entry_vec.len() > field && !(entry_vec.len() == 1 && entry_vec[0].len() == 0)`. -/
def rowGuard (f : Nat) (ev : List (List Char)) : Bool :=
  decide (ev.length > f) && ! (ev.length == 1 && ev.headI.length == 0)

/-- One row of the `filter_map` closure of `parse_csv_text` (`main.rs` lines
69-77): under the guard the `field`-th entry is removed and returned.
`Vec::remove` panics out of bounds, modelled by `.error ()`. -/
def extractField (f : Nat) (l : List Char) : Except Unit (Option (List Char)) :=
  if rowGuard f (rowFields l) then
    match (rowFields l)[f]? with
    | some v => .ok (some v)
    | none => .error ()
  else .ok none

/-- The `filter_map` + `collect` over the rows of the text. -/
def parseRows (f : Nat) : List (List Char) → Except Unit (List (List Char))
  | [] => .ok []
  | l :: ls =>
    match extractField f l with
    | .error e => .error e
    | .ok v =>
      match parseRows f ls with
      | .error e => .error e
      | .ok rest =>
        match v with
        | some x => .ok (x :: rest)
        | none => .ok rest

/-- `parse_csv_text` (`main.rs` lines 67-78): `let field = field - 1` is a
`usize` decrement, which has no defined result for `field = 0` (debug builds
panic), modelled by `.error ()`; then the rows of `text.split("\n")` are
processed. -/
def parse_csv_text (text : List Char) : Nat → Except Unit (List (List Char))
  | 0 => .error ()
  | f + 1 => parseRows f (splitSep '\n' text)

/-- Result of one `gpa.download` call, by the error kinds the per-item match
of `download_apps_from_google_play` distinguishes (`main.rs` lines 90-116). -/
inductive GpResult
  | ok
  | fileExists
  | invalidApp
  | otherErr
deriving DecidableEq, Repr

/-- Terminal outcome of one item of the Google Play variant. `success` and
`alreadyExists` correspond to the `Ok(())` arms, `invalidTarget` and
`failed` to the `Err(err)` arms. -/
inductive GpOutcome
  | success
  | alreadyExists
  | invalidTarget
  | failed
deriving DecidableEq, Repr

/-- Per-item attempt chain of `download_apps_from_google_play` (`main.rs`
lines 90-116). `r i` is the result the backend would return on the
`(i+1)`-th invocation; the returned `Nat` is the number of invocations
made. Only the first attempt classifies the error kind; the two retry arms
match `Err(_)`. -/
def google_play_attempt_chain (r : Nat → GpResult) : GpOutcome × Nat :=
  match r 0 with
  | .ok => (.success, 1)
  | .fileExists => (.alreadyExists, 1)
  | .invalidApp => (.invalidTarget, 1)
  | .otherErr =>
    match r 1 with
    | .ok => (.success, 2)
    | _ =>
      match r 2 with
      | .ok => (.success, 3)
      | _ => (.failed, 3)

/-- Per-item attempt chain of `download_apps_from_apkpure` (`main.rs` lines
126-144). `r i` is the result of the `(i+1)`-th `download_single_app` call
(`some` a result tuple, or `none` for any error); the returned `Nat` is the
number of invocations made. Three failures yield `none` (the item is
filtered out). -/
def apkpure_attempt_chain {α : Type} (r : Nat → Option α) : Option α × Nat :=
  match r 0 with
  | some v => (some v, 1)
  | none =>
    match r 1 with
    | some v => (some v, 2)
    | none =>
      match r 2 with
      | some v => (some v, 3)
      | none => (none, 3)

/-- Filesystem environment for the finalization loop: `readDir` lists the
accessible entries of a directory (`none` models `read_dir` returning
`Err`), `renameOk` tells whether a `fs::rename(old, new)` succeeds. -/
structure FsEnv where
  readDir : List Char → Option (List (List Char))
  renameOk : List Char → List Char → Bool

/-- `Path::new(p).join(q)`: when `q` is absolute (leading `'/'`), `join`
replaces the whole path with `q`; otherwise `q` is appended after a
separator. -/
def joinPath (p q : List Char) : List Char :=
  if q.head? = some '/' then q else p ++ '/' :: q

/-- Console report for one finalized item. -/
inductive ItemReport
  | saved
  | couldNotSave
deriving DecidableEq, Repr

/-- Finalization loop of `download_apps_from_apkpure` (`main.rs` lines
150-163). Each element of the list is a `(filepath, new_filename, app_id)`
tuple from a successful `download_single_app`. A failing `fs::rename` hits
`.unwrap()` and panics (`.error ()`), abandoning the remaining items. -/
def apkpure_finalize_loop (fs : FsEnv) :
    List (List Char × List Char × List Char) → Except Unit (List ItemReport)
  | [] => .ok []
  | mf :: rest =>
    match fs.readDir mf.1 with
    | some dirList =>
      if dirList.length > 0 then
        let oldFilename := dirList.headI
        if fs.renameOk (joinPath mf.1 oldFilename) (joinPath mf.1 mf.2.1) then
          (apkpure_finalize_loop fs rest).map (fun rs => .saved :: rs)
        else .error ()
      else (apkpure_finalize_loop fs rest).map (fun rs => .couldNotSave :: rs)
    | none => (apkpure_finalize_loop fs rest).map (fun rs => .couldNotSave :: rs)

/-- Per-item download directory of `download_single_app` (`main.rs` line
171): `Path::new(outpath).join(app_id)` — a function of the identifier
alone. -/
def single_app_download_dir (outpath appId : List Char) : List Char :=
  joinPath outpath appId

/-- Download directories assigned to a whole identifier list. -/
def assignedDirs (outpath : List Char) (ids : List (List Char)) : List (List Char) :=
  ids.map (single_app_download_dir outpath)

/-- Character class `[0-9.]` of the size regex (`main.rs` line 185). -/
def isSizeChar (c : Char) : Bool :=
  c == '.' || (decide ('0' ≤ c) && decide (c ≤ '9'))

/-- Helper for `sizeSuffixRev`: requires the next two characters (reading
backwards) to be `'('` preceded by `' '`, returning what is before them. -/
def parenSpace : List Char → Option (List Char)
  | c5 :: c6 :: rest2 => if c5 == '(' && c6 == ' ' then some rest2 else none
  | _ => none

/-- Matcher for the anchored regex `" \([0-9.]+ MB\)$"` on the reversed
character list: on a match, returns the (reversed) remainder before the
matched suffix. -/
def sizeSuffixRev : List Char → Option (List Char)
  | c1 :: c2 :: c3 :: c4 :: rest =>
    if c1 == ')' && c2 == 'B' && c3 == 'M' && c4 == ' ' then
      if (rest.takeWhile isSizeChar).length > 0 then
        parenSpace (rest.dropWhile isSizeChar)
      else none
    else none
  | _ => none

/-- Filename derivation of `download_single_app` (`main.rs` lines 185-188):
`Regex::new(r" \([0-9.]+ MB\)$")` then `re.replace(&new_filename, "")`.
The `$`-anchored match is removed when present; otherwise the text is
returned unchanged. -/
def strip_size_suffix (s : List Char) : List Char :=
  match sizeSuffixRev s.reverse with
  | some rest => rest.reverse
  | none => s

/-! Helper lemmas about trimming and splitting. -/

theorem getLast?_dropWhile {α : Type} (p : α → Bool) (xs : List α) (c : α)
    (h : (xs.dropWhile p).getLast? = some c) : xs.getLast? = some c := by
  induction xs with
  | nil => simp [List.dropWhile] at h
  | cons a t ih =>
    by_cases hp : p a = true
    · rw [List.dropWhile_cons] at h
      simp only [hp, if_true] at h
      have ht := ih h
      cases t with
      | nil => simp at ht
      | cons b t2 => rw [List.getLast?_cons_cons]; exact ht
    · rw [List.dropWhile_cons] at h
      simp only [hp, if_false] at h
      exact h

theorem trim_head_not_ws (l : List Char) (c : Char)
    (h : (trimChars l).head? = some c) : isWS c = false := by
  unfold trimChars at h
  rw [List.head?_reverse] at h
  have h2 := getLast?_dropWhile isWS (l.dropWhile isWS).reverse c h
  rw [List.getLast?_reverse] at h2
  have hw := List.head?_dropWhile_not isWS l
  rw [h2] at hw
  exact hw

theorem trim_mem (l : List Char) (c : Char) (h : c ∈ trimChars l) : c ∈ l := by
  unfold trimChars at h
  rw [List.mem_reverse] at h
  have h1 := (List.dropWhile_sublist (l := (l.dropWhile isWS).reverse) isWS).subset h
  rw [List.mem_reverse] at h1
  exact (List.dropWhile_sublist (l := l) isWS).subset h1

theorem splitSep_head (sep : Char) (m v : List Char) (c : Char)
    (h : (splitSep sep m).head? = some v) (hc : v.head? = some c) :
    m.head? = some c := by
  cases m with
  | nil =>
    simp [splitSep] at h
    subst h
    simp at hc
  | cons a as =>
    by_cases ha : a == sep
    · simp [splitSep, ha] at h
      subst h
      simp at hc
    · rw [splitSep] at h
      simp only [ha, if_false] at h
      cases hs : splitSep sep as with
      | nil =>
        rw [hs] at h
        simp at h
        subst h
        simp at hc
        simp [hc]
      | cons hh tt =>
        rw [hs] at h
        simp at h
        subst h
        simp at hc
        simp [hc]

theorem splitSep_no_sep (sep : Char) (m : List Char) (h : sep ∉ m) :
    splitSep sep m = [m] := by
  induction m with
  | nil => rfl
  | cons a as ih =>
    have ha : (a == sep) = false := by
      simp only [List.mem_cons, not_or] at h
      simp [beq_iff_eq]
      exact fun he => h.1 he.symm
    have has : sep ∉ as := by
      simp only [List.mem_cons, not_or] at h
      exact h.2
    rw [splitSep, ih has, ha]
    simp

/-! Helper lemmas about the CSV row pipeline. -/

theorem extractField_ok (f : Nat) (l : List Char) :
    ∃ v, extractField f l = Except.ok v := by
  cases hg : rowGuard f (rowFields l) with
  | false => exact ⟨none, by simp [extractField, hg]⟩
  | true =>
    have hlen : f < (rowFields l).length := by
      have := hg
      unfold rowGuard at this
      rw [Bool.and_eq_true] at this
      exact of_decide_eq_true this.1
    cases hget : (rowFields l)[f]? with
    | none =>
      have := List.getElem?_eq_none_iff.mp hget
      omega
    | some v => exact ⟨some v, by simp [extractField, hg, hget]⟩

theorem parseRows_ok (f : Nat) (ls : List (List Char)) :
    ∃ out, parseRows f ls = Except.ok out := by
  induction ls with
  | nil => exact ⟨[], rfl⟩
  | cons l ls ih =>
    obtain ⟨v, hv⟩ := extractField_ok f l
    obtain ⟨out, hout⟩ := ih
    cases v with
    | some x => exact ⟨x :: out, by rw [parseRows, hv, hout]⟩
    | none => exact ⟨out, by rw [parseRows, hv, hout]⟩

theorem parseRows_mem (f : Nat) (ls : List (List Char)) (ids : List (List Char))
    (ident : List Char) (h : parseRows f ls = Except.ok ids) (hid : ident ∈ ids) :
    ∃ l, l ∈ ls ∧ extractField f l = Except.ok (some ident) := by
  induction ls generalizing ids with
  | nil =>
    rw [parseRows] at h
    cases h
    simp at hid
  | cons l ls ih =>
    rw [parseRows] at h
    cases h1 : extractField f l with
    | error e => rw [h1] at h; cases h
    | ok v =>
      rw [h1] at h
      cases h2 : parseRows f ls with
      | error e => rw [h2] at h; cases h
      | ok rest =>
        rw [h2] at h
        cases v with
        | some x =>
          injection h with h3
          subst h3
          rcases List.mem_cons.mp hid with he | hm
          · exact ⟨l, List.mem_cons_self l ls, he ▸ h1⟩
          · obtain ⟨l2, hl2, he2⟩ := ih rest h2 hm
            exact ⟨l2, List.mem_cons_of_mem l hl2, he2⟩
        | none =>
          injection h with h3
          subst h3
          obtain ⟨l2, hl2, he2⟩ := ih rest h2 hid
          exact ⟨l2, List.mem_cons_of_mem l hl2, he2⟩

/-! Claim theorems. -/

/-- C10: `parse_csv_text` decrements the 1-indexed column parameter before
indexing; for every column index at least 1 the function is total (the
decrement cannot underflow and the guarded `Vec::remove` is always in
bounds, so no panic occurs), while column index 0 underflows the decrement
and has no defined result. -/
theorem parse_csv_field_indexing_total (text : List Char) (f : Nat) (h : 1 ≤ f) :
    parse_csv_text text 0 = Except.error () ∧ (parse_csv_text text f).isOk = true := by
  refine ⟨rfl, ?_⟩
  match f, h with
  | f' + 1, _ =>
    obtain ⟨out, hout⟩ := parseRows_ok f' (splitSep '\n' text)
    simp [parse_csv_text, hout, Except.isOk, Except.toBool]

/-- Witness: C10 instantiated at a concrete text and column index 1. -/
theorem parse_csv_field_indexing_total_witness :
    parse_csv_text ("a,b").data 0 = Except.error () ∧
      (parse_csv_text ("a,b").data 1).isOk = true :=
  parse_csv_field_indexing_total (("a,b").data) 1 (by decide)

/-- C6 (counterexample): `parse_csv_text` trims each whole line, not each
field, so the field selected by column index 2 in the row `"a, b"` — which
follows a comma-and-space separator — is returned as `" b"`, an identifier
with leading whitespace. -/
theorem csv_field_not_trimmed_after_comma_space :
    parse_csv_text ("a, b").data 2 = Except.ok [[' ', 'b']] ∧
      ([' ', 'b'] : List Char).head? = some ' ' ∧ isWS ' ' = true :=
  ⟨rfl, rfl, rfl⟩

/-- C6 (amended): only the whole line is trimmed before splitting on
commas; interior fields keep whitespace adjacent to commas. Consequently
for column index 1 the extracted first field never has leading whitespace:
the head character of every extracted identifier is a non-whitespace
character. -/
theorem csv_line_trim_first_field_head (text : List Char) (ids : List (List Char))
    (ident : List Char) (c : Char) (h : parse_csv_text text 1 = Except.ok ids)
    (hid : ident ∈ ids) (hc : ident.head? = some c) : isWS c = false := by
  have h1 : parseRows 0 (splitSep '\n' text) = Except.ok ids := h
  obtain ⟨l, _, he⟩ := parseRows_mem 0 _ ids ident h1 hid
  unfold extractField at he
  by_cases hg : rowGuard 0 (rowFields l) = true
  · rw [if_pos hg] at he
    cases h0 : (rowFields l)[0]? with
    | none => rw [h0] at he; cases he
    | some v =>
      rw [h0] at he
      injection he with he2
      injection he2 with he3
      have hhead : (rowFields l).head? = some ident := by
        cases hrf : rowFields l with
        | nil => rw [hrf] at h0; cases h0
        | cons a t =>
          rw [hrf] at h0
          simp at h0
          simp only [List.head?_cons]
          rw [h0, he3]
      have := splitSep_head ',' (trimChars l) ident c hhead hc
      exact trim_head_not_ws l c this
  · rw [if_neg hg] at he
    cases he

/-- Witness: C6 (amended) instantiated at the row `"ab, c"` and column 1. -/
theorem csv_line_trim_first_field_head_witness : isWS 'a' = false :=
  csv_line_trim_first_field_head (("ab, c").data) [['a', 'b']] ['a', 'b'] 'a'
    rfl (by simp) rfl

/-- C9 (counterexample): the List Provider's column extraction can produce
an empty identifier: in the row `"a,,b"` the field selected by column
index 2 is the empty string, and it is returned. -/
theorem csv_empty_field_extracted :
    parse_csv_text ("a,,b").data 2 = Except.ok [[]] ∧
      ([] : List Char).length = 0 :=
  ⟨rfl, rfl⟩

/-- C9 (amended): an extracted field of a multi-field row may be empty; the
non-emptiness guarantee holds for rows without commas (single-field rows),
whose extracted identifier — the trimmed line, selected by column index
1 — is never empty because blank lines are skipped by the guard. -/
theorem csv_single_field_rows_nonempty (text : List Char) (f : Nat)
    (ids : List (List Char)) (ident : List Char)
    (hno : ∀ l ∈ splitSep '\n' text, (',' : Char) ∉ l)
    (h : parse_csv_text text (f + 1) = Except.ok ids) (hid : ident ∈ ids) :
    ident ≠ [] := by
  obtain ⟨l, hl, he⟩ := parseRows_mem f _ ids ident h hid
  have hcomma : (',' : Char) ∉ trimChars l := fun hc => hno l hl (trim_mem l ',' hc)
  have hrf : rowFields l = [trimChars l] := splitSep_no_sep ',' (trimChars l) hcomma
  unfold extractField at he
  rw [hrf] at he
  by_cases hg : rowGuard f [trimChars l] = true
  · have hg2 := hg
    unfold rowGuard at hg2
    rw [Bool.and_eq_true] at hg2
    have hflt : f < 1 := by
      have := of_decide_eq_true hg2.1
      simpa using this
    have hf0 : f = 0 := by omega
    subst hf0
    rw [if_pos hg] at he
    simp only [List.getElem?_cons_zero] at he
    injection he with he2
    injection he2 with he3
    have hlen : (trimChars l).length ≠ 0 := by
      have hb := hg2.2
      rw [Bool.not_eq_true'] at hb
      simp at hb
      intro hzero
      exact absurd hzero (by simpa [List.headI] using hb)
    intro hnil
    rw [← he3] at hnil
    exact hlen (by rw [hnil]; rfl)
  · rw [if_neg hg] at he
    cases he

/-- Witness: C9 (amended) instantiated at a comma-free two-row text. -/
theorem csv_single_field_rows_nonempty_witness : (['a', 'b'] : List Char) ≠ [] :=
  csv_single_field_rows_nonempty (("ab\ncd").data) 0 [['a', 'b'], ['c', 'd']]
    ['a', 'b'] (by decide) rfl (by simp)

/-! Retry-chain lemmas. -/

theorem gp_chain_bounds (r : Nat → GpResult) :
    1 ≤ (google_play_attempt_chain r).2 ∧ (google_play_attempt_chain r).2 ≤ 3 := by
  unfold google_play_attempt_chain
  cases h0 : r 0 <;> simp
  cases h1 : r 1 <;> simp <;> cases h2 : r 2 <;> simp

theorem gp_chain_stop (r : Nat → GpResult) (i : Nat) (h : r i = GpResult.ok) :
    (google_play_attempt_chain r).2 ≤ i + 1 := by
  match i with
  | 0 =>
    unfold google_play_attempt_chain
    rw [h]
  | 1 =>
    unfold google_play_attempt_chain
    cases h0 : r 0 <;> simp
    rw [h]
  | i + 2 =>
    have := (gp_chain_bounds r).2
    omega

theorem apk_chain_bounds {α : Type} (s : Nat → Option α) :
    1 ≤ (apkpure_attempt_chain s).2 ∧ (apkpure_attempt_chain s).2 ≤ 3 := by
  unfold apkpure_attempt_chain
  cases h0 : s 0 <;> simp
  cases h1 : s 1 <;> simp
  cases h2 : s 2 <;> simp

theorem apk_chain_stop {α : Type} (s : Nat → Option α) (j : Nat)
    (h : (s j).isSome = true) : (apkpure_attempt_chain s).2 ≤ j + 1 := by
  match j with
  | 0 =>
    unfold apkpure_attempt_chain
    cases h0 : s 0 with
    | some v => simp
    | none => rw [h0] at h; simp [Option.isSome] at h
  | 1 =>
    unfold apkpure_attempt_chain
    cases h0 : s 0
    case some => simp
    case none =>
      cases h1 : s 1 with
      | some v => simp
      | none => rw [h1] at h; simp [Option.isSome] at h
  | j + 2 =>
    have := (apk_chain_bounds s).2
    omega

/-- C2: in both the Google Play and the APKPure variant the per-item
attempt chain makes between 1 and 3 backend invocations (initial attempt
plus at most 2 retries), and a success on any attempt stops further
invocations for that item. -/
theorem gp_apk_attempt_bounds (r : Nat → GpResult) {α : Type} (s : Nat → Option α)
    (i j : Nat) :
    (1 ≤ (google_play_attempt_chain r).2 ∧ (google_play_attempt_chain r).2 ≤ 3) ∧
    (1 ≤ (apkpure_attempt_chain s).2 ∧ (apkpure_attempt_chain s).2 ≤ 3) ∧
    (r i = GpResult.ok → (google_play_attempt_chain r).2 ≤ i + 1) ∧
    ((s j).isSome = true → (apkpure_attempt_chain s).2 ≤ j + 1) :=
  ⟨gp_chain_bounds r, apk_chain_bounds s,
    fun h => gp_chain_stop r i h, fun h => apk_chain_stop s j h⟩

/-- Witness: C2 instantiated at chains that succeed on the first attempt. -/
theorem gp_apk_attempt_bounds_witness :
    (1 ≤ (google_play_attempt_chain (fun _ => GpResult.ok)).2 ∧
      (google_play_attempt_chain (fun _ => GpResult.ok)).2 ≤ 3) ∧
    (1 ≤ (apkpure_attempt_chain (fun _ => some ())).2 ∧
      (apkpure_attempt_chain (fun _ => some ())).2 ≤ 3) ∧
    (google_play_attempt_chain (fun _ => GpResult.ok)).2 ≤ 0 + 1 ∧
    (apkpure_attempt_chain (fun _ => some ())).2 ≤ 0 + 1 := by
  have h := gp_apk_attempt_bounds (fun _ => GpResult.ok) (fun _ => some ()) 0 0
  exact ⟨h.1, h.2.1, h.2.2.1 rfl, h.2.2.2 rfl⟩

/-- C1 (counterexample): the Google Play per-item chain classifies the
error kind only on the first attempt. With backend results (other error,
`FileExists`, success), the `AlreadyExists`-classifiable error on the
second attempt does not terminate the item: a third backend invocation is
made. -/
theorem gp_classification_second_attempt_retries :
    (fun i => if i == 0 then GpResult.otherErr
      else if i == 1 then GpResult.fileExists else GpResult.ok : Nat → GpResult) 1 =
        GpResult.fileExists ∧
    google_play_attempt_chain
      (fun i => if i == 0 then GpResult.otherErr
        else if i == 1 then GpResult.fileExists else GpResult.ok) =
      (GpOutcome.success, 3) :=
  ⟨rfl, rfl⟩

/-- C1 (amended): only the first attempt's error is classified. A
`FileExists` (`AlreadyExists`) result on the first attempt terminates the
item as a success-equivalent with exactly one invocation; an `InvalidApp`
(`InvalidTarget`) result on the first attempt terminates it as a
non-retryable failure with exactly one invocation; after a retryable first
error, any non-success second result — whatever its kind — leads to a
third invocation. -/
theorem gp_first_attempt_classification (r1 r2 r3 : Nat → GpResult)
    (h1 : r1 0 = GpResult.fileExists) (h2 : r2 0 = GpResult.invalidApp)
    (h3 : r3 0 = GpResult.otherErr) (h4 : r3 1 ≠ GpResult.ok) :
    google_play_attempt_chain r1 = (GpOutcome.alreadyExists, 1) ∧
    google_play_attempt_chain r2 = (GpOutcome.invalidTarget, 1) ∧
    (google_play_attempt_chain r3).2 = 3 := by
  refine ⟨?_, ?_, ?_⟩
  · unfold google_play_attempt_chain
    rw [h1]
  · unfold google_play_attempt_chain
    rw [h2]
  · unfold google_play_attempt_chain
    rw [h3]
    cases hx : r3 1 <;> try simp
    · exact absurd hx h4
    all_goals cases h2x : r3 2 <;> simp

/-- Witness: C1 (amended) instantiated at three concrete result chains. -/
theorem gp_first_attempt_classification_witness :
    google_play_attempt_chain (fun _ => GpResult.fileExists) =
      (GpOutcome.alreadyExists, 1) ∧
    google_play_attempt_chain (fun _ => GpResult.invalidApp) =
      (GpOutcome.invalidTarget, 1) ∧
    (google_play_attempt_chain (fun _ => GpResult.otherErr)).2 = 3 :=
  gp_first_attempt_classification (fun _ => GpResult.fileExists)
    (fun _ => GpResult.invalidApp) (fun _ => GpResult.otherErr)
    rfl rfl rfl (by decide)

/-- C5 (counterexample): the temporary download directory is derived from
the identifier alone (`outpath.join(app_id)`), so the two distinct items of
the duplicate-containing list `["a", "a"]` — which may both be in flight
concurrently — are assigned the same temporary directory. -/
theorem duplicate_ids_share_download_dir :
    assignedDirs (("out").data) [("a").data, ("a").data] =
      [("out/a").data, ("out/a").data] ∧
    (assignedDirs (("out").data) [("a").data, ("a").data])[0]? =
      (assignedDirs (("out").data) [("a").data, ("a").data])[1]? :=
  ⟨rfl, rfl⟩

/-- C5 (amended): the temporary directory is a function of the identifier
alone. Distinct identifiers that are not absolute paths (no leading `'/'`)
are assigned distinct temporary directories; but duplicate occurrences of
one identifier in the list (and successive retry attempts for one
identifier) share the same directory, and an absolute identifier replaces
the output path entirely under `Path::join`, so distinct identifiers such
as `"x"` and `"/out/x"` under output path `"/out"` also collide. -/
theorem distinct_ids_distinct_download_dirs (out a b : List Char) (h : a ≠ b)
    (ha : a.head? ≠ some '/') (hb : b.head? ≠ some '/') :
    single_app_download_dir out a ≠ single_app_download_dir out b ∧
    single_app_download_dir (("/out").data) (("/out/x").data) =
      single_app_download_dir (("/out").data) (("x").data) := by
  constructor
  · intro heq
    unfold single_app_download_dir joinPath at heq
    rw [if_neg ha, if_neg hb] at heq
    have h2 := List.append_cancel_left heq
    injection h2 with _ hab
    exact h hab
  · rfl

/-- Witness: C5 (amended) instantiated at two distinct relative
identifiers. -/
theorem distinct_ids_distinct_download_dirs_witness :
    (single_app_download_dir (("out").data) (("a").data) ≠
      single_app_download_dir (("out").data) (("b").data)) ∧
    single_app_download_dir (("/out").data) (("/out/x").data) =
      single_app_download_dir (("/out").data) (("x").data) :=
  distinct_ids_distinct_download_dirs (("out").data) (("a").data) (("b").data)
    (by decide) (by decide) (by decide)

/-- C7: for an artifact whose directory listing is empty, the item is
reported `couldNotSave` and the loop continues over the remaining items
without a panic; for an artifact whose listing is non-empty, the rename
consulted is exactly of the first listed entry, within the same directory,
to the canonical target filename, and when it succeeds the item is
reported `saved` and the loop continues. -/
theorem finalize_empty_and_first_entry (fs : FsEnv)
    (mf1 mf2 : List Char × List Char × List Char)
    (rest1 rest2 : List (List Char × List Char × List Char))
    (e : List Char) (es : List (List Char))
    (hemp : fs.readDir mf1.1 = some [])
    (hne : fs.readDir mf2.1 = some (e :: es))
    (hrn : fs.renameOk (joinPath mf2.1 e) (joinPath mf2.1 mf2.2.1) = true) :
    apkpure_finalize_loop fs (mf1 :: rest1) =
      (apkpure_finalize_loop fs rest1).map
        (fun rs => ItemReport.couldNotSave :: rs) ∧
    apkpure_finalize_loop fs (mf2 :: rest2) =
      (apkpure_finalize_loop fs rest2).map (fun rs => ItemReport.saved :: rs) := by
  constructor
  · rw [apkpure_finalize_loop, hemp]
    simp
  · rw [apkpure_finalize_loop, hne]
    simp [List.headI, hrn]

/-- Witness: C7 instantiated at a concrete filesystem with one empty and
one single-entry directory. -/
theorem finalize_empty_and_first_entry_witness :
    apkpure_finalize_loop
        (⟨fun d => if d = ("out/a").data then some [] else some [("f.apk").data],
          fun _ _ => true⟩ : FsEnv)
        [(("out/a").data, ("a.apk").data, ("a").data)] =
      (apkpure_finalize_loop
        (⟨fun d => if d = ("out/a").data then some [] else some [("f.apk").data],
          fun _ _ => true⟩ : FsEnv) []).map
          (fun rs => ItemReport.couldNotSave :: rs) ∧
    apkpure_finalize_loop
        (⟨fun d => if d = ("out/a").data then some [] else some [("f.apk").data],
          fun _ _ => true⟩ : FsEnv)
        [(("out/b").data, ("b.apk").data, ("b").data)] =
      (apkpure_finalize_loop
        (⟨fun d => if d = ("out/a").data then some [] else some [("f.apk").data],
          fun _ _ => true⟩ : FsEnv) []).map
          (fun rs => ItemReport.saved :: rs) :=
  finalize_empty_and_first_entry
    (⟨fun d => if d = ("out/a").data then some [] else some [("f.apk").data],
      fun _ _ => true⟩ : FsEnv)
    (("out/a").data, ("a.apk").data, ("a").data)
    (("out/b").data, ("b.apk").data, ("b").data) [] []
    (("f.apk").data) [] (by decide) (by decide) rfl

/-- C4 (counterexample): a failure of the finalizing rename is not
contained to its item: `fs::rename(..).unwrap()` panics, which aborts the
whole run and abandons the remaining artifact. -/
theorem finalize_rename_failure_aborts_run :
    apkpure_finalize_loop
        (⟨fun _ => some [("f.apk").data], fun _ _ => false⟩ : FsEnv)
        [(("out/a").data, ("a.apk").data, ("a").data),
          (("out/b").data, ("b.apk").data, ("b").data)] = Except.error () :=
  rfl

/-- C4 (amended): per-item failures are contained provided the finalizing
renames succeed: when every rename succeeds, the finalization loop never
panics and reports an outcome for every item, including items whose
temporary directory is unreadable or empty. A failing rename, by contrast,
panics and terminates the overall run. -/
theorem per_item_errors_contained_when_rename_succeeds (fs : FsEnv)
    (hren : ∀ a b, fs.renameOk a b = true)
    (mfs : List (List Char × List Char × List Char)) :
    (apkpure_finalize_loop fs mfs).toOption.map List.length = some mfs.length := by
  induction mfs with
  | nil => rfl
  | cons mf rest ih =>
    rw [apkpure_finalize_loop]
    cases hrest : apkpure_finalize_loop fs rest with
    | error err =>
      rw [hrest] at ih
      simp [Except.toOption] at ih
    | ok rs =>
      rw [hrest] at ih
      simp only [Except.toOption, Option.map] at ih
      injection ih with ih2
      cases hd : fs.readDir mf.1 with
      | none => simp [hrest, Except.map, Except.toOption, ih2]
      | some dirList =>
        cases dirList with
        | nil => simp [hrest, Except.map, Except.toOption, ih2]
        | cons e es =>
          simp [List.headI, hren, hrest, Except.map, Except.toOption, ih2]

/-- Witness: C4 (amended) instantiated at an always-succeeding rename
environment with one item. -/
theorem per_item_errors_contained_when_rename_succeeds_witness :
    (apkpure_finalize_loop (⟨fun _ => some [("f.apk").data], fun _ _ => true⟩ : FsEnv)
        [(("out/a").data, ("a.apk").data, ("a").data)]).toOption.map List.length =
      some 1 :=
  per_item_errors_contained_when_rename_succeeds
    (⟨fun _ => some [("f.apk").data], fun _ _ => true⟩ : FsEnv)
    (fun _ _ => rfl)
    [(("out/a").data, ("a.apk").data, ("a").data)]

/-! Lemmas about the size-suffix matcher. -/

theorem mem_takeWhile {α : Type} (p : α → Bool) (l : List α) (x : α)
    (h : x ∈ l.takeWhile p) : p x = true := by
  induction l with
  | nil => simp [List.takeWhile] at h
  | cons a t ih =>
    rw [List.takeWhile_cons] at h
    by_cases hp : p a = true
    · simp only [hp, if_true] at h
      rcases List.mem_cons.mp h with rfl | h2
      · exact hp
      · exact ih h2
    · simp only [Bool.not_eq_true] at hp
      simp [hp] at h

theorem sizeSuffixRev_decomp_some (pre ds : List Char) (hne : ds ≠ [])
    (hall : ∀ c ∈ ds, isSizeChar c = true) :
    sizeSuffixRev ((pre ++ ' ' :: '(' :: ds ++ [' ', 'M', 'B', ')']).reverse) =
      some pre.reverse := by
  have hrev : (pre ++ ' ' :: '(' :: ds ++ [' ', 'M', 'B', ')']).reverse =
      ')' :: 'B' :: 'M' :: ' ' :: (ds.reverse ++ '(' :: ' ' :: pre.reverse) := by
    simp
  rw [hrev]
  rw [sizeSuffixRev]
  have hds : ∀ a ∈ ds.reverse, isSizeChar a = true := by
    intro a ha
    exact hall a (List.mem_reverse.mp ha)
  have htw : (ds.reverse ++ '(' :: ' ' :: pre.reverse).takeWhile isSizeChar =
      ds.reverse := by
    rw [List.takeWhile_append_of_pos hds]
    simp [List.takeWhile_cons, isSizeChar]
  have hdw : (ds.reverse ++ '(' :: ' ' :: pre.reverse).dropWhile isSizeChar =
      '(' :: ' ' :: pre.reverse := by
    rw [List.dropWhile_append_of_pos hds]
    simp [List.dropWhile_cons, isSizeChar]
  rw [htw, hdw]
  have hlen : ds.reverse.length > 0 := by
    simp only [List.length_reverse]
    cases ds with
    | nil => exact absurd rfl hne
    | cons a t => simp
  rw [if_pos hlen]
  simp [parenSpace]

theorem sizeSuffixRev_some_decomp (m rest : List Char)
    (h : sizeSuffixRev m = some rest) :
    ∃ ds, ds ≠ [] ∧ (∀ c ∈ ds, isSizeChar c = true) ∧
      m.reverse = rest.reverse ++ ' ' :: '(' :: ds ++ [' ', 'M', 'B', ')'] := by
  match m with
  | [] => exact absurd h (by simp [sizeSuffixRev])
  | [c1] => exact absurd h (by simp [sizeSuffixRev])
  | [c1, c2] => exact absurd h (by simp [sizeSuffixRev])
  | [c1, c2, c3] => exact absurd h (by simp [sizeSuffixRev])
  | c1 :: c2 :: c3 :: c4 :: r =>
    rw [sizeSuffixRev] at h
    cases hg : (c1 == ')' && c2 == 'B' && c3 == 'M' && c4 == ' ') with
    | false => rw [hg] at h; cases h
    | true =>
      rw [hg] at h
      simp only [if_true] at h
      have hg2 := hg
      simp only [Bool.and_eq_true, beq_iff_eq] at hg2
      obtain ⟨⟨⟨e1, e2⟩, e3⟩, e4⟩ := hg2
      subst e1; subst e2; subst e3; subst e4
      by_cases hlen : (r.takeWhile isSizeChar).length > 0
      · rw [if_pos hlen] at h
        cases hdrop : r.dropWhile isSizeChar with
        | nil => rw [hdrop] at h; simp [parenSpace] at h
        | cons c5 r5 =>
          cases r5 with
          | nil => rw [hdrop] at h; simp [parenSpace] at h
          | cons c6 rest2 =>
            rw [hdrop, parenSpace] at h
            cases hg5 : (c5 == '(' && c6 == ' ') with
            | false => rw [hg5] at h; cases h
            | true =>
              rw [hg5] at h
              simp only [if_true] at h
              injection h with h6
              rw [h6] at hdrop
              have hg6 := hg5
              simp only [Bool.and_eq_true, beq_iff_eq] at hg6
              obtain ⟨e5, e6⟩ := hg6
              subst e5; subst e6
              refine ⟨(r.takeWhile isSizeChar).reverse, ?_, ?_, ?_⟩
              · intro hnil
                rw [← List.length_eq_zero] at hnil
                simp only [List.length_reverse] at hnil
                omega
              · intro c hc
                exact mem_takeWhile isSizeChar r c (List.mem_reverse.mp hc)
              · have hr : r = r.takeWhile isSizeChar ++ '(' :: ' ' :: rest := by
                  conv_lhs =>
                    rw [← List.takeWhile_append_dropWhile (p := isSizeChar) (l := r)]
                  rw [hdrop]
                set tw := r.takeWhile isSizeChar with htweq
                rw [hr]
                simp
      · rw [if_neg hlen] at h
        cases h

/-- C8: the canonical-filename derivation strips exactly one trailing
size suffix of the form a space followed by a parenthesized megabyte size:
`"example.apk (12.3 MB)"` yields `"example.apk"`, every text of the form
`pre ++ " (" ++ digits-and-dots ++ " MB)"` yields `pre`, and every text
with no such trailing suffix is returned unchanged. -/
theorem strip_size_suffix_spec (pre ds s : List Char) (hne : ds ≠ [])
    (hall : ∀ c ∈ ds, isSizeChar c = true)
    (hs : ¬ ∃ pre2 ds2, ds2 ≠ [] ∧ (∀ c ∈ ds2, isSizeChar c = true) ∧
      s = pre2 ++ ' ' :: '(' :: ds2 ++ [' ', 'M', 'B', ')']) :
    strip_size_suffix (("example.apk (12.3 MB)").data) = ("example.apk").data ∧
    strip_size_suffix (pre ++ ' ' :: '(' :: ds ++ [' ', 'M', 'B', ')']) = pre ∧
    strip_size_suffix s = s := by
  refine ⟨rfl, ?_, ?_⟩
  · unfold strip_size_suffix
    rw [sizeSuffixRev_decomp_some pre ds hne hall]
    simp
  · unfold strip_size_suffix
    cases hm : sizeSuffixRev s.reverse with
    | none => rfl
    | some rest =>
      exfalso
      obtain ⟨ds2, h1, h2, h3⟩ := sizeSuffixRev_some_decomp s.reverse rest hm
      rw [List.reverse_reverse] at h3
      exact hs ⟨rest.reverse, ds2, h1, h2, h3⟩

/-- Witness: C8 instantiated at concrete texts with and without a trailing
size suffix. -/
theorem strip_size_suffix_spec_witness :
    strip_size_suffix (("example.apk (12.3 MB)").data) = ("example.apk").data ∧
    strip_size_suffix (("x").data ++ ' ' :: '(' :: ['1'] ++ [' ', 'M', 'B', ')']) =
      ("x").data ∧
    strip_size_suffix (("example.apk").data) = ("example.apk").data :=
  strip_size_suffix_spec (("x").data) ['1'] (("example.apk").data)
    (by decide) (by decide)
    (by
      rintro ⟨p2, d2, hne2, hall2, heq⟩
      have hsome := sizeSuffixRev_decomp_some p2 d2 hne2 hall2
      rw [← heq] at hsome
      have hnone : sizeSuffixRev ((("example.apk").data).reverse) = none := rfl
      rw [hnone] at hsome
      cases hsome)

end ApkDownloader
